import Mathlib

/-
Verification of the music-processor repository's cue-sheet parsing and
scan-scheduling core against its natural-language specification.

Strings are modelled as lists of characters (`Str`), durations as `Int`
nanoseconds (Go's `time.Duration`), and Go's `int` as `Int`.  The four
regular expressions used by the cue parser are implemented directly as
leftmost-match scanners with the same backtracking preference order as
Go's regexp engine on these patterns.
-/

namespace Music

abbrev Str := List Char

/-- Convert a Lean string literal to the character-list representation. -/
def lit (s : String) : Str := s.data

/-- strings.TrimSpace: drop whitespace from both ends of a line. -/
def trimSpace (s : Str) : Str :=
  ((s.dropWhile Char.isWhitespace).reverse.dropWhile Char.isWhitespace).reverse

/-- strings.Split on a single separator character; keeps empty fields,
matching Go's `strings.Split(s, ":")`. -/
def splitOn (c : Char) : Str → List Str
  | [] => [[]]
  | x :: xs =>
    if x = c then [] :: splitOn c xs
    else
      match splitOn c xs with
      | [] => [[x]]
      | s :: ss => (x :: s) :: ss

/-- Value of a decimal digit character, if it is one. -/
def digitVal (c : Char) : Option Nat :=
  if 48 ≤ c.toNat ∧ c.toNat ≤ 57 then some (c.toNat - 48) else none

def digitsValAux (acc : Nat) : Str → Option Nat
  | [] => some acc
  | c :: cs =>
    match digitVal c with
    | some d => digitsValAux (acc * 10 + d) cs
    | none => none

/-- Decimal value of a non-empty all-digit string. -/
def digitsVal : Str → Option Nat
  | [] => none
  | s => digitsValAux 0 s

/-- strconv.Atoi: optional sign followed by at least one digit.
(Go's 64-bit range clamping is not modelled; all inputs in this
development are small.) -/
def goAtoi : Str → Option Int
  | [] => none
  | c :: ds =>
    if c = '+' then (digitsVal ds).map Int.ofNat
    else if c = '-' then (digitsVal ds).map fun n => -(Int.ofNat n)
    else (digitsVal (c :: ds)).map Int.ofNat

/-- The value Go code observes when it discards Atoi's error:
the parsed value on success, 0 on a parse error. -/
def atoi0 (s : Str) : Int := (goAtoi s).getD 0

/-- parser.go parseCueTime: split `MM:SS:FF` on ':', require exactly three
fields, convert with 75 frames per second, and scale milliseconds to a
`time.Duration` in nanoseconds.  Go's `/` on int truncates toward zero,
which is `Int.tdiv`. -/
def parseCueTime (timeStr : Str) : Option Int :=
  match splitOn ':' timeStr with
  | [p0, p1, p2] =>
    some ((atoi0 p0 * 60 * 1000 + atoi0 p1 * 1000 + Int.tdiv (atoi0 p2 * 1000) 75) * 1000000)
  | _ => none

/-- album.go Track.  All fields default to Go zero values so that
`{ Number := n }` mirrors `&Track{Number: n}`. -/
structure Track where
  Number : Int := 0
  Title : Str := []
  Artist : Str := []
  StartTime : Int := 0
  EndTime : Int := 0
  Album : Str := []
  AlbumArtist : Str := []
  Year : Str := []
  OnlineID : Int := 0
  Lyrics : Str := []
deriving DecidableEq, Repr

/-- parser.go CueSheet. -/
structure CueSheet where
  WavFile : Str
  Tracks : List Track
deriving DecidableEq, Repr

/-- Case-insensitive character comparison, as Go's `(?i)` flag performs
on the ASCII literals of the cue-directive patterns. -/
def charCI (a b : Char) : Bool := a.toLower == b.toLower

/-- Match a literal pattern case-insensitively at the head of the input,
returning the remainder. -/
def dropLitCI : Str → Str → Option Str
  | [], s => some s
  | _ :: _, [] => none
  | p :: ps, c :: cs => if charCI p c then dropLitCI ps cs else none

/-- Match a literal pattern exactly at the head of the input (the
guest-performer regex has no `(?i)` flag). -/
def dropLit : Str → Str → Option Str
  | [], s => some s
  | _ :: _, [] => none
  | p :: ps, c :: cs => if p == c then dropLit ps cs else none

/-- Leftmost-match scan: try the position matcher at each suffix, earliest
start first, as `FindStringSubmatch` does. -/
def scanFind {α : Type} (g : Str → Option α) : Str → Option α
  | [] => g []
  | c :: tl =>
    match g (c :: tl) with
    | some r => some r
    | none => scanFind g tl

/-- `(?i)FILE "([^"]+)"` at one position: the literal, then a non-empty
run of non-quote characters, then the closing quote. -/
def matchFileAt (s : Str) : Option Str :=
  match dropLitCI (lit "FILE \"") s with
  | none => none
  | some r =>
    let cap := r.takeWhile fun c => c != '"'
    let rest := r.dropWhile fun c => c != '"'
    if cap.isEmpty || rest.isEmpty then none else some cap

/-- `(?i)TITLE "([^"]+)"` at one position. -/
def matchTitleAt (s : Str) : Option Str :=
  match dropLitCI (lit "TITLE \"") s with
  | none => none
  | some r =>
    let cap := r.takeWhile fun c => c != '"'
    let rest := r.dropWhile fun c => c != '"'
    if cap.isEmpty || rest.isEmpty then none else some cap

/-- `(?i)TRACK (\d+) AUDIO` at one position: the greedy digit run is the
maximal one, since a shorter run would leave a digit where ` AUDIO`
must start. -/
def matchTrackAt (s : Str) : Option Str :=
  match dropLitCI (lit "TRACK ") s with
  | none => none
  | some r =>
    let digits := r.takeWhile Char.isDigit
    let rest := r.dropWhile Char.isDigit
    if digits.isEmpty then none
    else
      match dropLitCI (lit " AUDIO") rest with
      | some _ => some digits
      | none => none

/-- `(?i)INDEX 01 (\d{2}:\d{2}:\d{2})` at one position. -/
def matchIndexAt (s : Str) : Option Str :=
  match dropLitCI (lit "INDEX 01 ") s with
  | none => none
  | some r =>
    match r with
    | d1 :: d2 :: c1 :: d3 :: d4 :: c2 :: d5 :: d6 :: _ =>
      if d1.isDigit && d2.isDigit && c1 == ':' && d3.isDigit && d4.isDigit &&
          c2 == ':' && d5.isDigit && d6.isDigit then
        some [d1, d2, c1, d3, d4, c2, d5, d6]
      else none
    | _ => none

/-- Intermediate state of parseCueFile's line loop. -/
structure ParseState where
  WavFile : Str := []
  Tracks : List Track := []
  cur : Option Track := none
deriving DecidableEq, Repr

/-- One iteration of parseCueFile's scanner loop: trim the line, then try
the FILE, TRACK, TITLE and INDEX directives in the source's order. -/
def parseCueLine (st : ParseState) (line : Str) : ParseState :=
  let l := trimSpace line
  match scanFind matchFileAt l with
  | some wav => { st with WavFile := wav }
  | none =>
    match scanFind matchTrackAt l with
    | some digits =>
      { st with
        Tracks := st.Tracks ++ (match st.cur with | some c => [c] | none => [])
        cur := some { Number := atoi0 digits } }
    | none =>
      match st.cur with
      | none => st
      | some t =>
        match scanFind matchTitleAt l with
        | some cap => { st with cur := some { t with Title := cap } }
        | none =>
          match scanFind matchIndexAt l with
          | some ts => { st with cur := some { t with StartTime := (parseCueTime ts).getD 0 } }
          | none => st

/-- The line-loop state after scanning all lines. -/
def parseCueScan (lines : List Str) : ParseState :=
  lines.foldl parseCueLine {}

/-- Tracks collected by parseCueFile, including the final in-progress
track flushed after the loop. -/
def collectedTracks (lines : List Str) : List Track :=
  let st := parseCueScan lines
  st.Tracks ++ (match st.cur with | some c => [c] | none => [])

/-- parser.go parseCueFile on decoded text (given as its list of lines;
reading and encoding detection are the text-decoder collaborator's job).
`none` models the `MalformedCue` error return. -/
def parseCueFile (lines : List Str) : Option CueSheet :=
  if collectedTracks lines = [] then none
  else some ⟨(parseCueScan lines).WavFile, collectedTracks lines⟩

/-- album.go Disc.  The cue path and the joined WAV path are filesystem
strings; the disc keeps the backing-file name written in the cue sheet. -/
structure Disc where
  DiscNumber : Int
  WavFile : Str
  Tracks : List Track
deriving DecidableEq, Repr

/-- The album fields processCueFile reads (album.go Album's Artist, Title
and Year, already script-normalized by the caller). -/
structure AlbumInfo where
  Artist : Str
  Title : Str
  Year : Str
deriving DecidableEq, Repr

/-- Character class `[ （]` of the guest-performer regex. -/
def ftSep (c : Char) : Bool := c == ' ' || c == '（'

/-- Character class `[）)]` of the guest-performer regex. -/
def ftClose (c : Char) : Bool := c == '）' || c == ')'

/-- Greedy `(.+)` capture followed by one closing-class character: try the
longest capture first, as the backtracking engine prefers. -/
def greedyCaptureAux (r : Str) : Nat → Option Str
  | 0 => none
  | k + 1 =>
    match r.drop (k + 1) with
    | c :: _ => if ftClose c then some (r.take (k + 1)) else greedyCaptureAux r k
    | [] => greedyCaptureAux r k

/-- `(?:与|feat\.)(.+)[）)]` starting right after the separator class. -/
def matchFtTail (s : Str) : Option Str :=
  match dropLit (lit "与") s with
  | some r => greedyCaptureAux r r.length
  | none =>
    match dropLit (lit "feat.") s with
    | some r => greedyCaptureAux r r.length
    | none => none

/-- `(.+)[ （](?:与|feat\.)(.+)[）)]` at one start position: the first
group is tried longest-first; for each split the separator class, the
alternation (`与` preferred) and the greedy second group follow. -/
def ftAtAux (s : Str) : Nat → Option (Str × Str)
  | 0 => none
  | k + 1 =>
    match s.drop (k + 1) with
    | c :: rest =>
      if ftSep c then
        match matchFtTail rest with
        | some g2 => some (s.take (k + 1), g2)
        | none => ftAtAux s k
      else ftAtAux s k
    | [] => ftAtAux s k

/-- Leftmost match of the guest-performer regex
`(.+)[ （](?:与|feat\.)(.+)[）)]` (parser.go line 196), returning the two
captured groups. -/
def findFt (s : Str) : Option (Str × Str) :=
  scanFind (fun r => ftAtAux r r.length) s

/-- strings.Contains: does `pat` occur as a contiguous substring of `s`? -/
def containsSub : Str → Str → Bool
  | [], pat => pat.isEmpty
  | c :: tl, pat => pat.isPrefixOf (c :: tl) || containsSub tl pat

/-- The per-track body of processCueFile's loop (parser.go lines 182-203):
copy the cue track, script-normalize the title, default the artist to the
album artist, and split a guest-performer clause out of the title when the
`strings.Contains` guard (which demands a space before the parenthesis)
fires and the regex matches.  `t2s` is the external script-normalizer
collaborator (TradToSim); `endT` is the end time assigned by lines
205-212. -/
def buildTrack (t2s : Str → Str) (a : AlbumInfo) (cueT : Track) (endT : Int) : Track :=
  let base : Track :=
    { Number := cueT.Number
      Title := t2s cueT.Title
      Album := a.Title
      AlbumArtist := a.Artist
      Artist := a.Artist
      Year := a.Year
      StartTime := cueT.StartTime
      EndTime := endT }
  if containsSub base.Title (lit " （与") || containsSub base.Title (lit " (与") then
    match findFt base.Title with
    | some (g1, g2) =>
      { base with Title := trimSpace g1, Artist := a.Artist ++ lit ", " ++ t2s g2 }
    | none => base
  else base

/-- Parser.go lines 182-215: build the disc's tracks, giving every
non-final track the next track's start time as its end time and leaving
the final track's end time at the zero sentinel. -/
def buildTracks (t2s : Str → Str) (a : AlbumInfo) : List Track → List Track
  | [] => []
  | c :: rest =>
    buildTrack t2s a c (match rest with | [] => 0 | c2 :: _ => c2.StartTime) ::
      buildTracks t2s a rest

/-- parser.go processCueFile: parse the cue sheet and build the Disc.
The `os.Stat` existence check of the WAV path named by the cue sheet is
I/O; it is abstracted as the boolean `wavPresent` (false yields the
"source WAV file not found" error, modelled as `none`). -/
def processCueFile (t2s : Str → Str) (wavPresent : Bool) (a : AlbumInfo) (discNumber : Int)
    (lines : List Str) : Option Disc :=
  match parseCueFile lines with
  | none => none
  | some cs =>
    if wavPresent then some ⟨discNumber, cs.WavFile, buildTracks t2s a cs.Tracks⟩
    else none

/-! Concrete cue-sheet inputs used to settle the scenario claims. -/

/-- An album with artist "Main", title "Album", year "1999". -/
def albumMain : AlbumInfo := ⟨lit "Main", lit "Album", lit "1999"⟩

/-- The three-track cue sheet of the specification's scenario. -/
def cueLines3 : List Str :=
  [lit "FILE \"album.wav\"",
   lit "TRACK 01 AUDIO", lit "INDEX 01 00:00:00",
   lit "TRACK 02 AUDIO", lit "INDEX 01 03:30:00",
   lit "TRACK 03 AUDIO", lit "INDEX 01 07:12:50"]

/-- A cue sheet whose successive INDEX 01 timestamps decrease. -/
def cueLinesDesc : List Str :=
  [lit "FILE \"a.wav\"",
   lit "TRACK 01 AUDIO", lit "INDEX 01 01:00:00",
   lit "TRACK 02 AUDIO", lit "INDEX 01 00:00:00"]

/-- A cue sheet with one track and no FILE directive. -/
def cueLinesNoFile : List Str :=
  [lit "TRACK 01 AUDIO", lit "INDEX 01 00:00:00"]

/-- A track titled "Song（与Guest合唱）" — no space before the parenthesis. -/
def cueLinesGuest : List Str :=
  [lit "FILE \"a.wav\"", lit "TRACK 01 AUDIO",
   lit "TITLE \"Song（与Guest合唱）\"", lit "INDEX 01 00:00:00"]

/-- The same track but with a space before the opening parenthesis. -/
def cueLinesGuestSpace : List Str :=
  [lit "FILE \"a.wav\"", lit "TRACK 01 AUDIO",
   lit "TITLE \"Song （与Guest合唱）\"", lit "INDEX 01 00:00:00"]

/-- C3 counterexample: on the scenario cue sheet (tracks at 00:00:00,
03:30:00, 07:12:50) the third track's start offset is not the claimed
432667 ms: `(50*1000)/75` truncates to 666, giving 432666 ms. -/
theorem c3_scenario_counterexample :
    ((processCueFile id true albumMain 1 cueLines3).map fun d =>
        d.Tracks.map Track.StartTime)
      ≠ some [0, 210000 * 1000000, 432667 * 1000000] := by
  decide

/-- C3 amended: the scenario cue sheet yields exactly three tracks with
start offsets 0 ms, 210000 ms and 432666 ms, end offsets 210000 ms and
432666 ms for tracks 1 and 2, and the zero/unset sentinel for track 3. -/
theorem c3_scenario_offsets :
    ((processCueFile id true albumMain 1 cueLines3).map fun d =>
        d.Tracks.map fun t => (t.StartTime, t.EndTime))
      = some [(0, 210000 * 1000000), (210000 * 1000000, 432666 * 1000000),
              (432666 * 1000000, 0)] := by
  decide

/-- C4 counterexample: a cue sheet with no FILE directive at all is parsed
successfully (with an empty backing-file name) — the parser does not fail
on a missing FILE directive. -/
theorem c4_missing_file_succeeds :
    (parseCueFile cueLinesNoFile).isSome = true ∧
      (parseCueFile cueLinesNoFile).map CueSheet.WavFile = some [] := by
  decide

/-- C4 amended: parseCueFile either produces a CueSheet or fails, and at
the content level it fails exactly when zero tracks are collected; a
missing FILE directive leaves the backing-file name empty without
failing, and timestamp parse errors are discarded. -/
theorem c4_fail_iff_no_tracks (lines : List Str) :
    parseCueFile lines = none ↔ collectedTracks lines = [] := by
  unfold parseCueFile
  split <;> simp_all

/-- C5 counterexample: for track title "Song（与Guest合唱）" (no space
before the parenthesis) with album artist "Main", the guard
`strings.Contains(title, " （与")` does not fire, so the title is left
unchanged and the artist stays "Main" — not title "Song" and artist
"Main, Guest" as claimed. -/
theorem c5_scenario_counterexample :
    ((processCueFile id true albumMain 1 cueLinesGuest).map fun d =>
        d.Tracks.map fun t => (t.Title, t.Artist))
      = some [(lit "Song（与Guest合唱）", lit "Main")] ∧
      lit "Song（与Guest合唱）" ≠ lit "Song" := by
  decide

/-- C5 amended: the guest clause is only split when a space precedes the
opening parenthesis, and the extracted names run to the closing
parenthesis: "Song（与Guest合唱）" is left unchanged with artist "Main",
while "Song （与Guest合唱）" yields title "Song" and artist
"Main, Guest合唱". -/
theorem c5_guest_split_behavior :
    ((processCueFile id true albumMain 1 cueLinesGuest).map fun d =>
        d.Tracks.map fun t => (t.Title, t.Artist))
      = some [(lit "Song（与Guest合唱）", lit "Main")] ∧
      ((processCueFile id true albumMain 1 cueLinesGuestSpace).map fun d =>
          d.Tracks.map fun t => (t.Title, t.Artist))
        = some [(lit "Song", lit "Main, Guest合唱")] := by
  decide

/-! Arithmetic of `parseCueTime` on well-formed `MM:SS:FF` timestamps. -/

/-- Two-digit decimal rendering of a value below 100. -/
def render2 (n : Nat) : Str := [Nat.digitChar (n / 10), Nat.digitChar (n % 10)]

/-- The `MM:SS:FF` string with the given minute, second and frame fields. -/
def renderTime (m s f : Nat) : Str :=
  render2 m ++ (':' :: (render2 s ++ (':' :: render2 f)))

lemma splitOn_eq_of_no_sep (c : Char) (a : Str) (h : c ∉ a) : splitOn c a = [a] := by
  induction a with
  | nil => rfl
  | cons x xs ih =>
    simp only [List.mem_cons, not_or] at h
    rw [splitOn, if_neg (fun e => h.1 e.symm), ih h.2]

lemma splitOn_append (c : Char) (a b : Str) (h : c ∉ a) :
    splitOn c (a ++ c :: b) = a :: splitOn c b := by
  induction a with
  | nil =>
    simp only [List.nil_append]
    rw [splitOn, if_pos rfl]
  | cons x xs ih =>
    simp only [List.mem_cons, not_or] at h
    simp only [List.cons_append]
    rw [splitOn, if_neg (fun e => h.1 e.symm), ih h.2]

lemma digitVal_digitChar {d : Nat} (h : d < 10) : digitVal (Nat.digitChar d) = some d := by
  interval_cases d <;> decide

lemma digitChar_ne_colon {d : Nat} (h : d < 10) : Nat.digitChar d ≠ ':' := by
  interval_cases d <;> decide

lemma digitChar_ne_plus {d : Nat} (h : d < 10) : Nat.digitChar d ≠ '+' := by
  interval_cases d <;> decide

lemma digitChar_ne_minus {d : Nat} (h : d < 10) : Nat.digitChar d ≠ '-' := by
  interval_cases d <;> decide

lemma colon_not_mem_render2 {n : Nat} (h : n ≤ 99) : ':' ∉ render2 n := by
  have h1 : n / 10 < 10 := by omega
  have h2 : n % 10 < 10 := by omega
  simp only [render2, List.mem_cons, List.not_mem_nil, or_false]
  exact not_or.mpr ⟨fun e => digitChar_ne_colon h1 e.symm,
    fun e => digitChar_ne_colon h2 e.symm⟩

lemma atoi0_render2 {n : Nat} (h : n ≤ 99) : atoi0 (render2 n) = (n : Int) := by
  have h1 : n / 10 < 10 := by omega
  have h2 : n % 10 < 10 := by omega
  unfold atoi0 render2 goAtoi
  dsimp only
  rw [if_neg (digitChar_ne_plus h1), if_neg (digitChar_ne_minus h1)]
  simp only [digitsVal, digitsValAux, digitVal_digitChar h1, digitVal_digitChar h2,
    Option.map_some', Option.getD_some, Int.ofNat_eq_natCast]
  omega

set_option maxRecDepth 2000 in
/-- C2: every index-01 timestamp of the form `MM:SS:FF` parses to the
duration `minutes*60000 + seconds*1000 + floor(frames*1000/75)`
milliseconds (scaled to `time.Duration` nanoseconds by the final
`* time.Millisecond`). -/
theorem parseCueTime_conversion (m s f : Nat) (hm : m ≤ 99) (hs : s ≤ 99) (hf : f ≤ 99) :
    parseCueTime (renderTime m s f)
      = some (((m * 60000 + s * 1000 + f * 1000 / 75 : Nat) : Int) * 1000000) := by
  have e1 : splitOn ':' (renderTime m s f) = [render2 m, render2 s, render2 f] := by
    unfold renderTime
    rw [splitOn_append ':' (render2 m) _ (colon_not_mem_render2 hm),
        splitOn_append ':' (render2 s) _ (colon_not_mem_render2 hs),
        splitOn_eq_of_no_sep ':' (render2 f) (colon_not_mem_render2 hf)]
  unfold parseCueTime
  rw [e1]
  dsimp only
  rw [atoi0_render2 hm, atoi0_render2 hs, atoi0_render2 hf]
  have hdiv : Int.tdiv ((f : Int) * 1000) 75 = ((f * 1000 / 75 : Nat) : Int) := rfl
  rw [hdiv]
  refine congrArg some ?_
  push_cast
  ring

/-- C2 witness: the conversion at `07:12:50`. -/
theorem parseCueTime_conversion_witness :
    parseCueTime (renderTime 7 12 50)
      = some (((7 * 60000 + 12 * 1000 + 50 * 1000 / 75 : Nat) : Int) * 1000000) :=
  parseCueTime_conversion 7 12 50 (by decide) (by decide) (by decide)

/-! Structural facts about the tracks a disc is built from. -/

lemma buildTrack_StartTime (t2s : Str → Str) (a : AlbumInfo) (cueT : Track) (endT : Int) :
    (buildTrack t2s a cueT endT).StartTime = cueT.StartTime := by
  simp only [buildTrack]
  split
  · split <;> rfl
  · rfl

lemma buildTrack_EndTime (t2s : Str → Str) (a : AlbumInfo) (cueT : Track) (endT : Int) :
    (buildTrack t2s a cueT endT).EndTime = endT := by
  simp only [buildTrack]
  split
  · split <;> rfl
  · rfl

lemma buildTracks_length (t2s : Str → Str) (a : AlbumInfo) (l : List Track) :
    (buildTracks t2s a l).length = l.length := by
  induction l with
  | nil => rfl
  | cons c rest ih => simp [buildTracks, ih]

lemma buildTracks_map_StartTime (t2s : Str → Str) (a : AlbumInfo) (l : List Track) :
    (buildTracks t2s a l).map Track.StartTime = l.map Track.StartTime := by
  induction l with
  | nil => rfl
  | cons c rest ih => simp [buildTracks, buildTrack_StartTime, ih]

lemma buildTracks_get_StartTime (t2s : Str → Str) (a : AlbumInfo) (l : List Track)
    (j : Nat) (h : j < l.length) :
    ((buildTracks t2s a l).get ⟨j, by rw [buildTracks_length]; exact h⟩).StartTime
      = (l.get ⟨j, h⟩).StartTime := by
  induction l generalizing j with
  | nil => simp at h
  | cons c rest ih =>
    cases j with
    | zero => simp [buildTracks, buildTrack_StartTime]
    | succ k => simpa [buildTracks] using ih k (by simpa using h)

lemma buildTracks_chain (t2s : Str → Str) (a : AlbumInfo) (l : List Track)
    (i : Nat) (h : i + 1 < l.length) :
    ((buildTracks t2s a l).get ⟨i, by rw [buildTracks_length]; omega⟩).EndTime
      = (l.get ⟨i + 1, h⟩).StartTime := by
  induction l generalizing i with
  | nil => simp at h
  | cons c rest ih =>
    cases i with
    | zero =>
      cases rest with
      | nil => simp at h
      | cons c2 rest2 => simp [buildTracks, buildTrack_EndTime]
    | succ j =>
      have h2 : j + 1 < rest.length := by
        simpa using h
      simpa [buildTracks] using ih j h2

lemma buildTracks_last (t2s : Str → Str) (a : AlbumInfo) (l : List Track)
    (i : Nat) (hi : i + 1 = l.length) (h : i < (buildTracks t2s a l).length) :
    ((buildTracks t2s a l).get ⟨i, h⟩).EndTime = 0 := by
  induction l generalizing i with
  | nil => simp [buildTracks] at h
  | cons c rest ih =>
    cases rest with
    | nil =>
      have hz : i = 0 := by simpa using hi
      subst hz
      simp [buildTracks, buildTrack_EndTime]
    | cons c2 rest2 =>
      cases i with
      | zero => simp at hi
      | succ j =>
        have hj : j + 1 = (c2 :: rest2).length := by simpa using hi
        have hlt : j < (buildTracks t2s a (c2 :: rest2)).length := by
          rw [buildTracks_length]
          simp at hj ⊢
          omega
        simpa [buildTracks] using ih j hj hlt

/-- C1 amended: for every disc built from a cue sheet, each non-final
track's end offset equals the next track's start offset, the final
track's end offset is the zero/unset sentinel, and the start offsets are
monotonically non-decreasing whenever the cue sheet's successive INDEX 01
timestamps are non-decreasing (the parser copies the timestamps without
enforcing that ordering). -/
theorem processCueFile_track_boundaries (t2s : Str → Str) (a : AlbumInfo) (dn : Int)
    (lines : List Str) (disc : Disc)
    (hd : processCueFile t2s true a dn lines = some disc) :
    (∀ i (h : i + 1 < disc.Tracks.length),
        (disc.Tracks.get ⟨i, by omega⟩).EndTime
          = (disc.Tracks.get ⟨i + 1, h⟩).StartTime)
    ∧ (∀ i (h : i < disc.Tracks.length), i + 1 = disc.Tracks.length →
        (disc.Tracks.get ⟨i, h⟩).EndTime = 0)
    ∧ (∀ cs, parseCueFile lines = some cs →
        (cs.Tracks.map Track.StartTime).Chain' (· ≤ ·) →
        (disc.Tracks.map Track.StartTime).Chain' (· ≤ ·)) := by
  unfold processCueFile at hd
  cases hp : parseCueFile lines with
  | none =>
    rw [hp] at hd
    simp at hd
  | some cs0 =>
    rw [hp] at hd
    have hd2 : (⟨dn, cs0.WavFile, buildTracks t2s a cs0.Tracks⟩ : Disc) = disc := by
      simpa using hd
    subst hd2
    refine ⟨?_, ?_, ?_⟩
    · intro i h
      have hl : i + 1 < cs0.Tracks.length := by
        rw [buildTracks_length] at h
        exact h
      exact (buildTracks_chain t2s a cs0.Tracks i hl).trans
        (buildTracks_get_StartTime t2s a cs0.Tracks (i + 1) hl).symm
    · intro i h hi
      exact buildTracks_last t2s a cs0.Tracks i
        (by rw [buildTracks_length] at hi; exact hi) h
    · intro cs hcs hmono
      have hcc : cs = cs0 := (Option.some.inj hcs).symm
      subst hcc
      rw [buildTracks_map_StartTime]
      exact hmono

/-- The disc produced from the scenario cue sheet `cueLines3`. -/
def disc3 : Disc :=
  ⟨1, lit "album.wav",
   [{ Number := 1, Artist := lit "Main", StartTime := 0, EndTime := 210000000000,
      Album := lit "Album", AlbumArtist := lit "Main", Year := lit "1999" },
    { Number := 2, Artist := lit "Main", StartTime := 210000000000,
      EndTime := 432666000000, Album := lit "Album", AlbumArtist := lit "Main",
      Year := lit "1999" },
    { Number := 3, Artist := lit "Main", StartTime := 432666000000, EndTime := 0,
      Album := lit "Album", AlbumArtist := lit "Main", Year := lit "1999" }]⟩

/-- C1 witness: the boundary invariants instantiated on the scenario cue
sheet's disc. -/
theorem processCueFile_track_boundaries_witness :
    (∀ i (h : i + 1 < disc3.Tracks.length),
        (disc3.Tracks.get ⟨i, by omega⟩).EndTime
          = (disc3.Tracks.get ⟨i + 1, h⟩).StartTime)
    ∧ (∀ i (h : i < disc3.Tracks.length), i + 1 = disc3.Tracks.length →
        (disc3.Tracks.get ⟨i, h⟩).EndTime = 0)
    ∧ (∀ cs, parseCueFile cueLines3 = some cs →
        (cs.Tracks.map Track.StartTime).Chain' (· ≤ ·) →
        (disc3.Tracks.map Track.StartTime).Chain' (· ≤ ·)) :=
  processCueFile_track_boundaries id albumMain 1 cueLines3 disc3 (by decide)

/-- C1 counterexample: a cue sheet whose INDEX 01 timestamps decrease
(01:00:00 then 00:00:00) builds a disc whose start offsets are not
monotonically non-decreasing, so the unconditional monotonicity in the
claim fails (the end-offset chaining still holds). -/
theorem processCueFile_monotonicity_counterexample :
    ((processCueFile id true albumMain 1 cueLinesDesc).map fun d =>
        d.Tracks.map Track.StartTime)
      = some [60000 * 1000000, 0] ∧ ¬((60000 * 1000000 : Int) ≤ 0) := by
  decide

/-!
Stability detector (waitForFilesStability).  The repository carries two
implementations: `pkg/scheduler/scheduler.go` (method on TaskScheduler)
and `main.go`; they share the per-entry sampling logic and differ in how
a directory-listing error is handled.  File names are abstracted to
naturals, instants to `Int` (Go `time.Time` along a monotone clock), and
each poll of the loop is one `PollM` carrying the instant at which the
loop body runs and the `os.ReadDir` outcome (`none` models a listing
error).  The sleeps between polls are reflected in the instants of the
successive polls.  Go's zero `time.Time` (the `IsZero` test on a missing
`fileQuietTimes` entry) is modelled by absence from the association
list. -/

/-- fileInfo: the (size, mtime) sample kept per file. -/
structure FileInfoM where
  size : Int
  modTime : Int
deriving DecidableEq, Repr

/-- Outcome of `entry.Info()` for a directory entry. -/
inductive StatRes where
  | ok (info : FileInfoM)
  | notExist
  | statFail
deriving DecidableEq, Repr

/-- One entry of a directory listing. -/
structure DirEntryM where
  name : Nat
  isDir : Bool
  stat : StatRes
deriving DecidableEq, Repr

/-- One iteration of the polling loop: its instant and the `os.ReadDir`
result (`none` = listing error). -/
structure PollM where
  time : Int
  listing : Option (List DirEntryM)
deriving DecidableEq, Repr

abbrev FileMap := List (Nat × FileInfoM)
abbrev QuietMap := List (Nat × Int)

/-- Go map update: replace any binding of `k`. -/
def updMap {α : Type} (m : List (Nat × α)) (k : Nat) (v : α) : List (Nat × α) :=
  (k, v) :: m.filter fun p => p.1 != k

/-- State threaded through the per-entry loop of one poll. -/
structure EntryScan where
  allQuiet : Bool
  hasRel : Bool
  current : FileMap
  quiet : QuietMap
deriving DecidableEq, Repr

/-- The body of the per-entry loop shared by both implementations
(scheduler.go lines 161-201, main.go lines 294-344) for one directory
entry: skip subdirectories and vanished files, break on a stat failure
(`false` in the second component), and for a relevant file record the
current sample, reset its quiet-since instant if it changed or was never
seen, and otherwise check whether it has been quiet for the required
duration.  `relevant` abstracts the extension allow-list
(`util.IsRelevantMusicFile` / the inline list in main.go). -/
def entryStep (relevant : Nat → Bool) (quietDur now : Int) (prev : FileMap)
    (e : DirEntryM) (st : EntryScan) : EntryScan × Bool :=
  if e.isDir then (st, true)
  else
    match e.stat with
    | .notExist => (st, true)
    | .statFail => ({ st with allQuiet := false, hasRel := true }, false)
    | .ok info =>
      if relevant e.name then
        let st1 : EntryScan :=
          { st with hasRel := true, current := updMap st.current e.name info }
        let changed : Bool :=
          match List.lookup e.name prev with
          | some p => p.size != info.size || p.modTime != info.modTime
          | none => true
        if changed then
          ({ st1 with quiet := updMap st1.quiet e.name now, allQuiet := false }, true)
        else
          match List.lookup e.name st1.quiet with
          | none =>
            ({ st1 with quiet := updMap st1.quiet e.name now, allQuiet := false }, true)
          | some lastChange =>
            if now - lastChange < quietDur then ({ st1 with allQuiet := false }, true)
            else (st1, true)
      else (st, true)

/-- The per-entry loop itself: fold `entryStep` over the listing,
stopping early when it reports a break. -/
def processEntries (relevant : Nat → Bool) (quietDur now : Int) (prev : FileMap) :
    List DirEntryM → EntryScan → EntryScan
  | [], st => st
  | e :: es, st =>
    match entryStep relevant quietDur now prev e st with
    | (st2, true) => processEntries relevant quietDur now prev es st2
    | (st2, false) => st2

/-- The `allCurrentlyQuiet` pass: every tracked quiet-since instant of a
still-present file must be at least `quietDur` old. -/
def allQuietNow (quietDur now : Int) (current : FileMap) (quiet : QuietMap) : Bool :=
  quiet.all fun fq =>
    match List.lookup fq.1 current with
    | none => true
    | some _ => !(now - fq.2 < quietDur)

/-- The body of one successful-listing poll: run the entry loop, declare
stability immediately when no relevant files exist, and otherwise require
both verdicts.  Returns the decision together with the next iteration's
`previousFileStates` and `fileQuietTimes`. -/
def pollBody (relevant : Nat → Bool) (quietDur now : Int)
    (listing : List DirEntryM) (prev : FileMap) (quiet : QuietMap) :
    Bool × FileMap × QuietMap :=
  let st := processEntries relevant quietDur now prev listing ⟨true, false, [], quiet⟩
  if !st.hasRel then (true, st.current, st.quiet)
  else (st.allQuiet && allQuietNow quietDur now st.current st.quiet, st.current, st.quiet)

/-- waitForFilesStability as in pkg/scheduler/scheduler.go: a listing
error logs, sleeps and continues the loop.  Returns the verdict and the
instant of the deciding poll; `none` when the supplied poll trace ends
before the loop decides. -/
def waitForFilesStabilityS (relevant : Nat → Bool) (quietDur maxWait start : Int) :
    List PollM → FileMap → QuietMap → Option (Bool × Int)
  | [], _, _ => none
  | p :: ps, prev, quiet =>
    if p.time - start < maxWait then
      match p.listing with
      | none => waitForFilesStabilityS relevant quietDur maxWait start ps prev quiet
      | some listing =>
        match pollBody relevant quietDur p.time listing prev quiet with
        | (true, _, _) => some (true, p.time)
        | (false, prev2, quiet2) =>
          waitForFilesStabilityS relevant quietDur maxWait start ps prev2 quiet2
    else some (false, p.time)

/-- Holds of a poll whose listing (if it succeeded) contains a regular,
successfully stat-ed entry for file `f`. -/
def entryOkFor (f : Nat) (e : DirEntryM) : Bool :=
  e.name == f && !e.isDir && (match e.stat with | .ok _ => true | _ => false)

/-- A poll either failed to list or lists file `f` as a regular file. -/
def pollHasFile (f : Nat) (p : PollM) : Bool :=
  match p.listing with
  | none => true
  | some l => l.any (entryOkFor f)

lemma lookup_mem {α : Type} {l : List (Nat × α)} {k : Nat} {v : α}
    (h : List.lookup k l = some v) : (k, v) ∈ l := by
  induction l with
  | nil => simp [List.lookup] at h
  | cons p l ih =>
    obtain ⟨pk, pv⟩ := p
    by_cases hk : k = pk
    · subst hk
      simp [List.lookup] at h
      exact h ▸ List.mem_cons_self _ _
    · have hbeq : (k == pk) = false := by simpa using hk
      rw [List.lookup] at h
      simp only [hbeq] at h
      exact List.mem_cons_of_mem _ (ih h)

lemma lookup_updMap_self {α : Type} (m : List (Nat × α)) (k : Nat) (v : α) :
    List.lookup k (updMap m k v) = some v := by
  simp [updMap, List.lookup]

lemma lookup_updMap_ne {α : Type} (m : List (Nat × α)) {k k2 : Nat} (v : α)
    (h : k2 ≠ k) : List.lookup k2 (updMap m k v) = List.lookup k2 m := by
  have hbeq : (k2 == k) = false := by simpa using h
  rw [updMap, List.lookup]
  simp only [hbeq]
  induction m with
  | nil => simp
  | cons p m ih =>
    obtain ⟨pk, pv⟩ := p
    by_cases hp : pk = k
    · subst hp
      rw [List.filter_cons_of_neg (by simp), List.lookup]
      simp only [hbeq]
      exact ih
    · rw [List.filter_cons_of_pos (by simpa using hp), List.lookup, List.lookup]
      cases hbeq2 : (k2 == pk)
      · exact ih
      · rfl

lemma entryStep_hasRel (relevant : Nat → Bool) (quietDur now : Int) (prev : FileMap)
    (e : DirEntryM) (st : EntryScan) (h : st.hasRel = true) :
    (entryStep relevant quietDur now prev e st).1.hasRel = true := by
  unfold entryStep
  split
  · exact h
  · split
    · exact h
    · rfl
    · split
      · dsimp only
        split
        · exact rfl
        · split
          · exact rfl
          · split <;> rfl
      · exact h

lemma entryStep_break_allQuiet (relevant : Nat → Bool) (quietDur now : Int)
    (prev : FileMap) (e : DirEntryM) (st : EntryScan) :
    (entryStep relevant quietDur now prev e st).2 = true
      ∨ (entryStep relevant quietDur now prev e st).1.allQuiet = false := by
  unfold entryStep
  split
  · exact Or.inl rfl
  · split
    · exact Or.inl rfl
    · exact Or.inr rfl
    · split
      · dsimp only
        split
        · exact Or.inl rfl
        · split
          · exact Or.inl rfl
          · split <;> exact Or.inl rfl
      · exact Or.inl rfl

lemma entryStep_allQuiet_mono (relevant : Nat → Bool) (quietDur now : Int)
    (prev : FileMap) (e : DirEntryM) (st : EntryScan)
    (h : (entryStep relevant quietDur now prev e st).1.allQuiet = true) :
    st.allQuiet = true := by
  unfold entryStep at h
  split at h
  · exact h
  · split at h
    · exact h
    · simp at h
    · split at h
      · dsimp only at h
        split at h
        · simp at h
        · split at h
          · simp at h
          · split at h
            · simp at h
            · exact h
      · exact h

lemma entryStep_keeps_current (relevant : Nat → Bool) (quietDur now : Int)
    (prev : FileMap) (e : DirEntryM) (st : EntryScan) (f : Nat)
    (h : ∃ i, List.lookup f st.current = some i) :
    ∃ i, List.lookup f (entryStep relevant quietDur now prev e st).1.current = some i := by
  have hupd : ∀ (m : FileMap) (k : Nat) (v : FileInfoM),
      (∃ i, List.lookup f m = some i) → ∃ i, List.lookup f (updMap m k v) = some i := by
    intro m k v ⟨i, hi⟩
    by_cases hk : f = k
    · subst hk
      exact ⟨v, lookup_updMap_self m f v⟩
    · exact ⟨i, by rw [lookup_updMap_ne m v hk]; exact hi⟩
  unfold entryStep
  split
  · exact h
  · split
    · exact h
    · exact h
    · split
      · dsimp only
        split
        · exact hupd _ _ _ h
        · split
          · exact hupd _ _ _ h
          · split <;> exact hupd _ _ _ h
      · exact h

lemma entryStep_ok_current (relevant : Nat → Bool) (quietDur now : Int)
    (prev : FileMap) (e : DirEntryM) (st : EntryScan) (f : Nat)
    (hrel : relevant f = true) (hok : entryOkFor f e = true) :
    (∃ i, List.lookup f (entryStep relevant quietDur now prev e st).1.current = some i)
      ∧ (entryStep relevant quietDur now prev e st).1.hasRel = true
      ∧ (entryStep relevant quietDur now prev e st).2 = true := by
  unfold entryOkFor at hok
  simp only [Bool.and_eq_true, beq_iff_eq, Bool.not_eq_true'] at hok
  obtain ⟨⟨hname, hdir⟩, hstat⟩ := hok
  unfold entryStep
  rw [if_neg (by simp [hdir])]
  cases hs : e.stat with
  | notExist => rw [hs] at hstat; simp at hstat
  | statFail => rw [hs] at hstat; simp at hstat
  | ok info =>
    dsimp only
    rw [hname, if_pos hrel]
    refine ⟨?_, ?_, ?_⟩
    · split
      · exact ⟨info, lookup_updMap_self _ _ _⟩
      · split
        · exact ⟨info, lookup_updMap_self _ _ _⟩
        · split <;> exact ⟨info, lookup_updMap_self _ _ _⟩
    · split
      · rfl
      · split
        · rfl
        · split <;> rfl
    · split
      · rfl
      · split
        · rfl
        · split <;> rfl

lemma entryStep_quiet (relevant : Nat → Bool) (quietDur now : Int)
    (prev : FileMap) (e : DirEntryM) (st : EntryScan) (f : Nat) (v : Int)
    (h : List.lookup f st.quiet = some v) :
    List.lookup f (entryStep relevant quietDur now prev e st).1.quiet = some v
      ∨ List.lookup f (entryStep relevant quietDur now prev e st).1.quiet = some now := by
  have hupd : ∀ (k : Nat),
      List.lookup f (updMap st.quiet k now) = some v
        ∨ List.lookup f (updMap st.quiet k now) = some now := by
    intro k
    by_cases hk : f = k
    · subst hk
      exact Or.inr (lookup_updMap_self _ _ _)
    · exact Or.inl (by rw [lookup_updMap_ne _ now hk]; exact h)
  unfold entryStep
  split
  · exact Or.inl h
  · split
    · exact Or.inl h
    · exact Or.inl h
    · split
      · dsimp only
        split
        · exact hupd _
        · split
          · exact hupd _
          · split <;> exact Or.inl h
      · exact Or.inl h

lemma entryStep_break_hasRel (relevant : Nat → Bool) (quietDur now : Int)
    (prev : FileMap) (e : DirEntryM) (st : EntryScan) :
    (entryStep relevant quietDur now prev e st).2 = true
      ∨ (entryStep relevant quietDur now prev e st).1.hasRel = true := by
  unfold entryStep
  split
  · exact Or.inl rfl
  · split
    · exact Or.inl rfl
    · exact Or.inr rfl
    · split
      · dsimp only
        split
        · exact Or.inl rfl
        · split
          · exact Or.inl rfl
          · split <;> exact Or.inl rfl
      · exact Or.inl rfl

lemma processEntries_quiet (relevant : Nat → Bool) (quietDur now : Int)
    (prev : FileMap) (es : List DirEntryM) (f : Nat) :
    ∀ (st : EntryScan) (v : Int), List.lookup f st.quiet = some v →
      List.lookup f (processEntries relevant quietDur now prev es st).quiet = some v
        ∨ List.lookup f (processEntries relevant quietDur now prev es st).quiet = some now := by
  induction es with
  | nil => exact fun st v h => Or.inl h
  | cons e es ih =>
    intro st v h
    rw [processEntries]
    have hstep := entryStep_quiet relevant quietDur now prev e st f v h
    cases hes : entryStep relevant quietDur now prev e st with
    | mk st2 cont =>
      rw [hes] at hstep
      cases cont with
      | false => exact hstep
      | true =>
        cases hstep with
        | inl h2 => exact ih st2 v h2
        | inr h2 =>
          cases ih st2 now h2 with
          | inl h3 => exact Or.inr h3
          | inr h3 => exact Or.inr h3

lemma processEntries_keeps_current (relevant : Nat → Bool) (quietDur now : Int)
    (prev : FileMap) (es : List DirEntryM) (f : Nat) :
    ∀ (st : EntryScan), (∃ i, List.lookup f st.current = some i) →
      ∃ i, List.lookup f (processEntries relevant quietDur now prev es st).current = some i := by
  induction es with
  | nil => exact fun st h => h
  | cons e es ih =>
    intro st h
    rw [processEntries]
    have hstep := entryStep_keeps_current relevant quietDur now prev e st f h
    cases hes : entryStep relevant quietDur now prev e st with
    | mk st2 cont =>
      rw [hes] at hstep
      cases cont with
      | false => exact hstep
      | true => exact ih st2 hstep

lemma processEntries_hasRel_mono (relevant : Nat → Bool) (quietDur now : Int)
    (prev : FileMap) (es : List DirEntryM) :
    ∀ (st : EntryScan), st.hasRel = true →
      (processEntries relevant quietDur now prev es st).hasRel = true := by
  induction es with
  | nil => exact fun st h => h
  | cons e es ih =>
    intro st h
    rw [processEntries]
    have hstep := entryStep_hasRel relevant quietDur now prev e st h
    cases hes : entryStep relevant quietDur now prev e st with
    | mk st2 cont =>
      rw [hes] at hstep
      cases cont with
      | false => exact hstep
      | true => exact ih st2 hstep

lemma processEntries_hasRel_find (relevant : Nat → Bool) (quietDur now : Int)
    (prev : FileMap) (es : List DirEntryM) (f : Nat) (hrel : relevant f = true) :
    ∀ (st : EntryScan), (∃ e ∈ es, entryOkFor f e = true) →
      (processEntries relevant quietDur now prev es st).hasRel = true := by
  induction es with
  | nil => rintro st ⟨e, he, _⟩; simp at he
  | cons e es ih =>
    rintro st ⟨e2, he2, hok⟩
    rw [processEntries]
    cases hes : entryStep relevant quietDur now prev e st with
    | mk st2 cont =>
      rcases List.mem_cons.mp he2 with rfl | hmem
      · have hstep := entryStep_ok_current relevant quietDur now prev e2 st f hrel hok
        rw [hes] at hstep
        obtain ⟨-, hhr, hcont⟩ := hstep
        cases cont with
        | false => simp at hcont
        | true => exact processEntries_hasRel_mono relevant quietDur now prev es st2 hhr
      · cases cont with
        | false =>
          cases entryStep_break_hasRel relevant quietDur now prev e st with
          | inl h2 => rw [hes] at h2; simp at h2
          | inr h2 => rw [hes] at h2; exact h2
        | true => exact ih st2 ⟨e2, hmem, hok⟩

lemma processEntries_allQuiet_find (relevant : Nat → Bool) (quietDur now : Int)
    (prev : FileMap) (es : List DirEntryM) (f : Nat) (hrel : relevant f = true) :
    ∀ (st : EntryScan), (∃ e ∈ es, entryOkFor f e = true) →
      (processEntries relevant quietDur now prev es st).allQuiet = true →
      ∃ i, List.lookup f (processEntries relevant quietDur now prev es st).current = some i := by
  induction es with
  | nil => rintro st ⟨e, he, _⟩; simp at he
  | cons e es ih =>
    rintro st ⟨e2, he2, hok⟩ hq
    rw [processEntries] at hq ⊢
    cases hes : entryStep relevant quietDur now prev e st with
    | mk st2 cont =>
      rw [hes] at hq
      cases cont with
      | false =>
        cases entryStep_break_allQuiet relevant quietDur now prev e st with
        | inl h2 => rw [hes] at h2; simp at h2
        | inr h2 => rw [hes] at h2; dsimp only at h2 hq; rw [hq] at h2; simp at h2
      | true =>
        rcases List.mem_cons.mp he2 with rfl | hmem
        · have hstep := entryStep_ok_current relevant quietDur now prev e2 st f hrel hok
          rw [hes] at hstep
          exact processEntries_keeps_current relevant quietDur now prev es f st2 hstep.1
        · exact ih st2 ⟨e2, hmem, hok⟩ hq

lemma allQuietNow_bound {quietDur now : Int} {current : FileMap} {quiet : QuietMap}
    {f : Nat} {lc : Int} {i : FileInfoM}
    (h : allQuietNow quietDur now current quiet = true)
    (hq : List.lookup f quiet = some lc) (hc : List.lookup f current = some i) :
    quietDur ≤ now - lc := by
  have hmem := lookup_mem hq
  have h2 := (List.all_eq_true.mp h) (f, lc) hmem
  dsimp only at h2
  rw [hc] at h2
  simp at h2
  omega

lemma pollBody_stable_bound (relevant : Nat → Bool) (quietDur now : Int)
    (listing : List DirEntryM) (prev : FileMap) (quiet : QuietMap) (f : Nat) (v : Int)
    (hrel : relevant f = true)
    (hq : List.lookup f quiet = some v)
    (hvnow : v ≤ now)
    (hw : ∃ e ∈ listing, entryOkFor f e = true)
    (hdec : (pollBody relevant quietDur now listing prev quiet).1 = true) :
    v + quietDur ≤ now := by
  unfold pollBody at hdec
  dsimp only at hdec
  have hhr : (processEntries relevant quietDur now prev listing
      ⟨true, false, [], quiet⟩).hasRel = true :=
    processEntries_hasRel_find relevant quietDur now prev listing f hrel _ hw
  rw [hhr] at hdec
  simp at hdec
  obtain ⟨hAQ, hAQN⟩ := hdec
  obtain ⟨i, hi⟩ :=
    processEntries_allQuiet_find relevant quietDur now prev listing f hrel _ hw hAQ
  have hquiet := processEntries_quiet relevant quietDur now prev listing f
    ⟨true, false, [], quiet⟩ v hq
  cases hquiet with
  | inl h1 =>
    have := allQuietNow_bound hAQN h1 hi
    omega
  | inr h1 =>
    have := allQuietNow_bound hAQN h1 hi
    omega

lemma pollBody_quiet_evolve (relevant : Nat → Bool) (quietDur now : Int)
    (listing : List DirEntryM) (prev : FileMap) (quiet : QuietMap) (f : Nat) (v : Int)
    (hq : List.lookup f quiet = some v) :
    List.lookup f (pollBody relevant quietDur now listing prev quiet).2.2 = some v
      ∨ List.lookup f (pollBody relevant quietDur now listing prev quiet).2.2 = some now := by
  have hpe := processEntries_quiet relevant quietDur now prev listing f
    ⟨true, false, [], quiet⟩ v hq
  unfold pollBody
  dsimp only
  split <;> exact hpe

/-- waitForFilesStability as in main.go: a listing error returns false
(unstable) immediately. -/
def waitForFilesStabilityM (relevant : Nat → Bool) (quietDur maxWait start : Int) :
    List PollM → FileMap → QuietMap → Option (Bool × Int)
  | [], _, _ => none
  | p :: ps, prev, quiet =>
    if p.time - start < maxWait then
      match p.listing with
      | none => some (false, p.time)
      | some listing =>
        match pollBody relevant quietDur p.time listing prev quiet with
        | (true, _, _) => some (true, p.time)
        | (false, prev2, quiet2) =>
          waitForFilesStabilityM relevant quietDur maxWait start ps prev2 quiet2
    else some (false, p.time)

set_option maxHeartbeats 1000000 in
/-- C6 amended: provided a relevant file `f` remains present (as a
regular, stat-able entry) in every successful listing, once `f` has been
observed to change (or first sighted) at instant `T` — i.e. its
`fileQuietTimes` entry holds `T` — the detector never declares the
directory stable before `T + quietDur`.  Poll instants do not decrease
and are not earlier than `T`.  The bound holds for any poll spacing, in
particular any poll interval at most the quiet duration. -/
theorem stability_not_declared_before_quiet
    (relevant : Nat → Bool) (quietDur maxWait start : Int) (polls : List PollM)
    (prev : FileMap) (quiet : QuietMap) (f : Nat) (T t : Int)
    (hrel : relevant f = true)
    (hq : List.lookup f quiet = some T)
    (hT : ∀ p ∈ polls, T ≤ p.time)
    (hmono : polls.Pairwise fun p q => p.time ≤ q.time)
    (hpres : ∀ p ∈ polls, pollHasFile f p = true)
    (hres : waitForFilesStabilityS relevant quietDur maxWait start polls prev quiet
        = some (true, t)) :
    T + quietDur ≤ t := by
  induction polls generalizing prev quiet T with
  | nil => simp [waitForFilesStabilityS] at hres
  | cons p ps ih =>
    rw [waitForFilesStabilityS] at hres
    by_cases hw : p.time - start < maxWait
    · rw [if_pos hw] at hres
      cases hl : p.listing with
      | none =>
        rw [hl] at hres
        exact ih prev quiet T hq (fun q hq2 => hT q (List.mem_cons_of_mem _ hq2))
          (List.Pairwise.sublist (List.sublist_cons_self _ _) hmono)
          (fun q hq2 => hpres q (List.mem_cons_of_mem _ hq2)) hres
      | some listing =>
        rw [hl] at hres
        dsimp only at hres
        have hwit : ∃ e ∈ listing, entryOkFor f e = true := by
          have := hpres p (List.mem_cons_self _ _)
          rw [pollHasFile, hl] at this
          simpa using this
        rcases hpb : pollBody relevant quietDur p.time listing prev quiet with
          ⟨dec, prev2, quiet2⟩
        rw [hpb] at hres
        cases dec with
        | true =>
          have ht : p.time = t := by
            have h2 := Option.some.inj hres
            exact congrArg Prod.snd h2
          have hbound := pollBody_stable_bound relevant quietDur p.time listing prev
            quiet f T hrel hq (hT p (List.mem_cons_self _ _)) hwit (by rw [hpb])
          omega
        | false =>
          have hq2 := pollBody_quiet_evolve relevant quietDur p.time listing prev
            quiet f T hq
          rw [hpb] at hq2
          dsimp only at hq2
          have hTtail : ∀ q ∈ ps, T ≤ q.time :=
            fun q hq3 => hT q (List.mem_cons_of_mem _ hq3)
          have hmtail : ps.Pairwise fun p q => p.time ≤ q.time :=
            List.Pairwise.sublist (List.sublist_cons_self _ _) hmono
          have hptail : ∀ q ∈ ps, pollHasFile f q = true :=
            fun q hq3 => hpres q (List.mem_cons_of_mem _ hq3)
          cases hq2 with
          | inl h2 => exact ih prev2 quiet2 T h2 hTtail hmtail hptail hres
          | inr h2 =>
            have hTp : ∀ q ∈ ps, p.time ≤ q.time :=
              fun q hq3 => (List.pairwise_cons.mp hmono).1 q hq3
            have := ih prev2 quiet2 p.time h2 hTp hmtail hptail hres
            have hTle : T ≤ p.time := hT p (List.mem_cons_self _ _)
            omega
    · rw [if_neg hw] at hres
      simp at hres

/-- C6 counterexample: the claim as stated fails when the changed file is
deleted before the next poll — file 0 is first sighted at instant 100
with a quiet duration of 60 and poll interval 10 ≤ 60, vanishes, and the
empty directory is declared stable at 110 < 100 + 60. -/
theorem stability_deleted_file_counterexample :
    waitForFilesStabilityS (fun _ => true) 60 100000 100
        [⟨100, some [⟨0, false, .ok ⟨5, 50⟩⟩]⟩, ⟨110, some []⟩] [] []
      = some (true, 110) ∧ (110 : Int) < 100 + 60 := by
  decide

/-- C6 witness: a file with quiet-since instant 100 and quiet duration 60
that stays present is declared stable at 160, and 100 + 60 ≤ 160. -/
theorem stability_not_declared_before_quiet_witness : (100 : Int) + 60 ≤ 160 :=
  stability_not_declared_before_quiet (fun _ => true) 60 100000 100
    [⟨160, some [⟨0, false, .ok ⟨5, 50⟩⟩]⟩] [(0, ⟨5, 50⟩)] [(0, 100)] 0 100 160
    rfl rfl (by decide) (by decide) (by decide) (by decide)

/-- C7 amended: in pkg/scheduler's waitForFilesStability a
directory-listing error is treated as an unstable poll — the loop keeps
its state, sleeps for the check interval and retries with the next poll
(until the max wait is exceeded).  In main.go's waitForFilesStability the
same error instead returns unstable immediately, aborting the wait; its
caller then reschedules the scan.  Neither implementation crashes. -/
theorem waitStability_listing_error_continues
    (relevant : Nat → Bool) (quietDur maxWait start : Int) (p : PollM) (ps : List PollM)
    (prev : FileMap) (quiet : QuietMap)
    (herr : p.listing = none) (hwin : p.time - start < maxWait) :
    waitForFilesStabilityS relevant quietDur maxWait start (p :: ps) prev quiet
      = waitForFilesStabilityS relevant quietDur maxWait start ps prev quiet := by
  rw [waitForFilesStabilityS, if_pos hwin, herr]

/-- C7 witness: a listing error at instant 100 followed by a successful
poll — the scheduler-version loop continues exactly as if started at the
second poll. -/
theorem waitStability_listing_error_continues_witness :
    waitForFilesStabilityS (fun _ => true) 60 100000 100
        [⟨100, none⟩, ⟨110, some []⟩] [] []
      = waitForFilesStabilityS (fun _ => true) 60 100000 100 [⟨110, some []⟩] [] [] :=
  waitStability_listing_error_continues (fun _ => true) 60 100000 100
    ⟨100, none⟩ [⟨110, some []⟩] [] [] rfl (by decide)

/-- C7 counterexample: on the same poll trace, main.go's implementation
returns unstable at the first (erroring) poll instead of continuing,
while the pkg/scheduler implementation continues and reaches a stable
verdict at the next poll — so "continues the polling loop rather than
aborting the wait" does not hold of both cited implementations. -/
theorem waitStability_main_aborts_counterexample :
    waitForFilesStabilityM (fun _ => true) 60 100000 100
        [⟨100, none⟩, ⟨110, some []⟩] [] [] = some (false, 100)
    ∧ waitForFilesStabilityS (fun _ => true) 60 100000 100
        [⟨100, none⟩, ⟨110, some []⟩] [] [] = some (true, 110) := by
  decide

/-!
Scan scheduler debounce (TriggerScan, pkg/scheduler/scheduler.go lines
78-95, and triggerScan, main.go lines 190-209).  `time.AfterFunc` timers
are modelled explicitly: every armed timer gets a fresh identifier and is
recorded with its directory; `Stop` adds the identifier to the stopped
set.  A timer eventually fires (runs performScan once) exactly when it
was armed and never stopped — which is what happens when the pending
delay elapses with no further re-arm, as in the claim's scenario where
all N calls precede the delay's expiry. -/

/-- Scheduler state: the fresh-timer counter, the pendingScans map
(directory ↦ timer id), every timer ever armed (id, directory), and the
ids on which Stop was called. -/
structure SchedState where
  nextId : Nat
  pending : List (Nat × Nat)
  armed : List (Nat × Nat)
  stopped : List Nat
deriving DecidableEq, Repr

/-- The scheduler before any trigger. -/
def initState : SchedState := ⟨0, [], [], []⟩

/-- TriggerScan(dir): stop the pending timer for the directory if one
exists, then arm a fresh delay and record it in the pending map. -/
def TriggerScan (dir : Nat) (st : SchedState) : SchedState :=
  let stopped2 :=
    match List.lookup dir st.pending with
    | some tid => tid :: st.stopped
    | none => st.stopped
  { nextId := st.nextId + 1
    pending := updMap st.pending dir st.nextId
    armed := (st.nextId, dir) :: st.armed
    stopped := stopped2 }

/-- Number of timer callbacks for `dir` that will fire — armed and never
stopped.  Each firing executes performScan for the directory once. -/
def firesFor (st : SchedState) (dir : Nat) : Nat :=
  st.armed.countP fun td => td.2 == dir && !(st.stopped.contains td.1)

/-- Debounce invariant after at least one trigger for `dir`: the pending
map names one live timer; every other armed timer for the directory has
been stopped; identifiers are bounded by the fresh counter; and exactly
one timer will fire. -/
def DebounceInv (dir : Nat) (st : SchedState) : Prop :=
  ∃ t, List.lookup dir st.pending = some t
    ∧ t ∉ st.stopped
    ∧ (∀ td ∈ st.armed, td.2 = dir → td.1 ∉ st.stopped → td.1 = t)
    ∧ t < st.nextId
    ∧ (∀ x ∈ st.stopped, x < st.nextId)
    ∧ firesFor st dir = 1

lemma triggerScan_inv_one (dir : Nat) : DebounceInv dir (TriggerScan dir initState) := by
  refine ⟨0, ?_, ?_, ?_, ?_, ?_, ?_⟩
  · exact lookup_updMap_self [] dir 0
  · simp [TriggerScan, initState, List.lookup]
  · intro td htd hdir hns
    simp [TriggerScan, initState, List.lookup] at htd
    rw [htd]
  · exact Nat.zero_lt_one
  · simp [TriggerScan, initState, List.lookup]
  · simp [TriggerScan, initState, List.lookup, firesFor, updMap]

lemma triggerScan_inv (dir : Nat) (st : SchedState) (h : DebounceInv dir st) :
    DebounceInv dir (TriggerScan dir st) := by
  obtain ⟨t, hp, hns, huniq, hlt, hsb, hfire⟩ := h
  have hstop2 : (TriggerScan dir st).stopped = t :: st.stopped := by
    unfold TriggerScan
    dsimp only
    rw [hp]
  have hnotin : st.nextId ∉ t :: st.stopped := by
    intro hmem
    rcases List.mem_cons.mp hmem with he | hmem2
    · omega
    · exact absurd (hsb _ hmem2) (by omega)
  refine ⟨st.nextId, ?_, ?_, ?_, ?_, ?_, ?_⟩
  · exact lookup_updMap_self st.pending dir st.nextId
  · rw [hstop2]
    exact hnotin
  · intro td htd hdir hnstop
    rw [hstop2] at hnstop
    have harm : (TriggerScan dir st).armed = (st.nextId, dir) :: st.armed := rfl
    rw [harm] at htd
    rcases List.mem_cons.mp htd with he | hmem2
    · rw [he]
    · exfalso
      have h1 : td.1 ≠ t := fun he2 => hnstop (he2 ▸ List.mem_cons_self _ _)
      have h2 : td.1 ∉ st.stopped := fun hm => hnstop (List.mem_cons_of_mem _ hm)
      exact h1 (huniq td hmem2 hdir h2)
  · exact Nat.lt_succ_self _
  · have hnid : (TriggerScan dir st).nextId = st.nextId + 1 := rfl
    rw [hstop2, hnid]
    intro x hx
    rcases List.mem_cons.mp hx with he | hmem2
    · omega
    · have := hsb x hmem2
      omega
  · have harm : (TriggerScan dir st).armed = (st.nextId, dir) :: st.armed := rfl
    rw [firesFor, harm, hstop2, List.countP_cons]
    have hhd : ((st.nextId, dir).2 == dir && !((t :: st.stopped).contains (st.nextId, dir).1))
        = true := by
      simp only [beq_self_eq_true, Bool.true_and, Bool.not_eq_true']
      simpa using hnotin
    rw [if_pos hhd]
    have htail : st.armed.countP
        (fun td => td.2 == dir && !((t :: st.stopped).contains td.1)) = 0 := by
      rw [List.countP_eq_zero]
      intro td htd hpred
      simp only [Bool.and_eq_true, beq_iff_eq, Bool.not_eq_true'] at hpred
      obtain ⟨hdir, hcont⟩ := hpred
      have hnm : td.1 ∉ t :: st.stopped := by
        simpa using hcont
      have h1 : td.1 ≠ t := fun he2 => hnm (he2 ▸ List.mem_cons_self _ _)
      have h2 : td.1 ∉ st.stopped := fun hm => hnm (List.mem_cons_of_mem _ hm)
      exact h1 (huniq td htd hdir h2)
    rw [htail]

/-- C8: re-arming TriggerScan for the same directory any number N ≥ 1 of
times before the pending delay fires stops and replaces the pending timer
each time, leaving exactly one timer that will fire — so exactly one scan
executes for the directory, not N. -/
theorem triggerScan_debounce (dir : Nat) (n : Nat) (hn : 1 ≤ n) :
    firesFor ((TriggerScan dir)^[n] initState) dir = 1 := by
  obtain ⟨m, rfl⟩ : ∃ m, n = m + 1 := ⟨n - 1, by omega⟩
  clear hn
  have hinv : DebounceInv dir ((TriggerScan dir)^[m + 1] initState) := by
    induction m with
    | zero => simpa using triggerScan_inv_one dir
    | succ k ihk =>
      rw [Function.iterate_succ_apply']
      exact triggerScan_inv dir _ ihk
  obtain ⟨t, -, -, -, -, -, hfire⟩ := hinv
  exact hfire

/-- C8 witness: three re-arms before the delay fires yield exactly one
scan execution. -/
theorem triggerScan_debounce_witness :
    firesFor ((TriggerScan 0)^[3] initState) 0 = 1 :=
  triggerScan_debounce 0 3 (by decide)

/-!
performScan (main.go lines 212-261, pkg/scheduler/scheduler.go lines
98-142; the two share the same decision structure — the scheduler version
additionally runs the metadata fetcher over the tracks before
transcoding, which does not affect the ledger logic).  The collaborators'
outcomes are inputs: the stability verdict, the processed-ledger query's
backing row count (`none` = query error, as in both IsAlbumProcessed
implementations), the album scan result (`none` = error, otherwise the
number of discs), and whether the downstream ProcessAlbum call errs. -/

structure ScanEnv where
  stable : Bool
  ledgerCount : Option Nat
  scanResult : Option Nat
  processErr : Bool
deriving DecidableEq, Repr

/-- IsAlbumProcessed (pkg/database/sqlite.go lines 64-73 and the db.go
variant): count rows for the path; on a query error return
`(false, error)`, otherwise `(count > 0, nil)`.  The second component is
the error flag. -/
def IsAlbumProcessed (queryRes : Option Nat) : Bool × Bool :=
  match queryRes with
  | none => (false, true)
  | some count => (decide (0 < count), false)

/-- Which side effects one performScan run performs. -/
structure ScanOutcome where
  rescheduled : Bool
  skippedProcessed : Bool
  assemblyInvoked : Bool
  downstreamInvoked : Bool
  markedProcessed : Bool
deriving DecidableEq, Repr

/-- performScan: reschedule when unstable; skip when the ledger says
processed (a ledger error is only logged — the returned boolean still
decides); scan the directory; when the album has at least one disc run
the downstream processor and mark the ledger only when it succeeds. -/
def performScan (env : ScanEnv) : ScanOutcome :=
  if !env.stable then ⟨true, false, false, false, false⟩
  else
    let pr := IsAlbumProcessed env.ledgerCount
    if pr.1 then ⟨false, true, false, false, false⟩
    else
      match env.scanResult with
      | none => ⟨false, false, true, false, false⟩
      | some discs =>
        if 0 < discs then
          if env.processErr then ⟨false, false, true, true, false⟩
          else ⟨false, false, true, true, true⟩
        else ⟨false, false, true, false, false⟩

lemma performScan_unprocessed (env : ScanEnv) (hstable : env.stable = true)
    (hnp : (IsAlbumProcessed env.ledgerCount).1 = false) :
    performScan env =
      match env.scanResult with
      | none => ⟨false, false, true, false, false⟩
      | some discs =>
        if 0 < discs then
          if env.processErr then ⟨false, false, true, true, false⟩
          else ⟨false, false, true, true, true⟩
        else ⟨false, false, true, false, false⟩ := by
  unfold performScan
  rw [hstable]
  simp only [Bool.not_true]
  rw [if_neg (by simp)]
  rw [hnp, if_neg (by simp)]

/-- C9: on a scan that passes the stability gate, is not already in the
ledger, and assembles an album with at least one disc, the directory is
marked processed exactly when the downstream processor succeeds; on a
downstream error nothing is written, leaving the directory eligible for
retry. -/
theorem performScan_marks_iff_success (env : ScanEnv) (d : Nat)
    (hstable : env.stable = true)
    (hnp : (IsAlbumProcessed env.ledgerCount).1 = false)
    (hscan : env.scanResult = some d) (hd : 0 < d) :
    (performScan env).downstreamInvoked = true
      ∧ ((performScan env).markedProcessed = true ↔ env.processErr = false) := by
  rw [performScan_unprocessed env hstable hnp, hscan]
  dsimp only
  rw [if_pos hd]
  cases henv : env.processErr with
  | false => simp
  | true => simp

/-- C9 witness: a stable, unprocessed directory with a one-disc album and
a successful downstream run. -/
theorem performScan_marks_iff_success_witness :
    (performScan ⟨true, some 0, some 1, false⟩).downstreamInvoked = true
      ∧ ((performScan ⟨true, some 0, some 1, false⟩).markedProcessed = true
          ↔ (⟨true, some 0, some 1, false⟩ : ScanEnv).processErr = false) :=
  performScan_marks_iff_success ⟨true, some 0, some 1, false⟩ 1 rfl (by decide) rfl
    (by decide)

/-- C10: when the processed-ledger query errs on a scan that has passed
the stability gate, the returned boolean is false, so the scheduler
treats the directory as unprocessed: it does not skip, it invokes album
assembly, and (when the scan yields an album with at least one disc) it
still hands the album downstream — a ledger read error never aborts the
scan. -/
theorem performScan_ledger_error_proceeds (env : ScanEnv)
    (hstable : env.stable = true) (herr : env.ledgerCount = none) :
    (IsAlbumProcessed env.ledgerCount).1 = false
      ∧ (performScan env).skippedProcessed = false
      ∧ (performScan env).assemblyInvoked = true
      ∧ (∀ d, env.scanResult = some d → 0 < d →
          (performScan env).downstreamInvoked = true) := by
  have hpr : IsAlbumProcessed env.ledgerCount = (false, true) := by
    rw [herr]
    rfl
  have hnp : (IsAlbumProcessed env.ledgerCount).1 = false := by rw [hpr]
  refine ⟨hnp, ?_, ?_, ?_⟩ <;> rw [performScan_unprocessed env hstable hnp]
  · cases hs : env.scanResult with
    | none => rfl
    | some discs =>
      dsimp only
      split
      · split <;> rfl
      · rfl
  · cases hs : env.scanResult with
    | none => rfl
    | some discs =>
      dsimp only
      split
      · split <;> rfl
      · rfl
  · intro d hs hd
    rw [hs]
    dsimp only
    rw [if_pos hd]
    split <;> rfl

/-- C10 witness: a ledger query error on a stable directory with a
two-disc album — the scan proceeds through assembly and downstream
processing. -/
theorem performScan_ledger_error_proceeds_witness :
    (IsAlbumProcessed (⟨true, none, some 2, false⟩ : ScanEnv).ledgerCount).1 = false
      ∧ (performScan ⟨true, none, some 2, false⟩).skippedProcessed = false
      ∧ (performScan ⟨true, none, some 2, false⟩).assemblyInvoked = true
      ∧ (∀ d, (⟨true, none, some 2, false⟩ : ScanEnv).scanResult = some d → 0 < d →
          (performScan ⟨true, none, some 2, false⟩).downstreamInvoked = true) :=
  performScan_ledger_error_proceeds ⟨true, none, some 2, false⟩ rfl rfl

end Music
